import Mathlib

/-!
Verification of the batch-embedding utilities in
src/backend/apps/rag/batch_utils.py.

The Python module partitions a text list into token-bounded batches, splits
each batch into request chunks of at most 2048 texts, submits each batch as an
asynchronous provider job, polls it to a terminal state, and reassembles the
per-text embedding vectors by sorting the provider's result records by their
custom_id strings.

Modelling conventions:
- Embedding vectors are lists of floats in the source; no claim computes with
  the float values, so they are modelled as opaque numeric lists.
- The tiktoken tokenizers used by _get_token_count are external; they are
  modelled as optional encoding functions (None when the library call raises).
- Network and provider effects (OpenAI client calls, polling, sleeping) are
  modelled by explicit environment parameters: a poll stream giving the job
  status seen at each poll iteration of each retry attempt, and a fetch
  function giving the parsed result lines of an output file.  The unbounded
  polling loop is modelled with a fuel parameter: a result of none means the
  loop was still running after the given number of iterations.
- Python strings compare lexicographically by code point; String.lt in Lean is
  the same order, but its Decidable instance does not reduce in the kernel, so
  the comparison is modelled directly on the underlying character lists.
- json.dumps / json.loads serialization is elided: a request is modelled as a
  structure holding the fields of the serialized object, and a parsed result
  line as an optional record (none models a line that json.loads rejects;
  missing fields are modelled as none fields).
-/

set_option maxRecDepth 4096

namespace BatchUtils

/-- Embedding vector of one text.  The source type is list[float]; the float
values are opaque to every claim, so Nat entries stand in for them. -/
abbrev EmbeddingVec := List Nat

/-- Job status values of the OpenAI Batch object, as enumerated in the
annotation of batch_status.status in _process_one_batch. -/
inductive JobStatus where
  | validating
  | failed
  | in_progress
  | finalizing
  | completed
  | expired
  | cancelling
  | cancelled
  deriving DecidableEq

/-- Rendering of a JobStatus as the literal string the provider uses, needed
for the RuntimeError message text of _process_one_batch. -/
def JobStatus.render : JobStatus → String
  | .validating => "validating"
  | .failed => "failed"
  | .in_progress => "in_progress"
  | .finalizing => "finalizing"
  | .completed => "completed"
  | .expired => "expired"
  | .cancelling => "cancelling"
  | .cancelled => "cancelled"

/-- Result of one client.batches.retrieve call: the status together with the
optional output_file_id, the two fields _process_one_batch reads. -/
structure BatchStatus where
  status : JobStatus
  output_file_id : Option String
  deriving DecidableEq

/-- One request chunk as serialized by _request_iterator: the JSON object
fields custom_id, method, url and body (body holds model and input). -/
structure Request where
  custom_id : String
  method : String
  url : String
  body_model : String
  body_input : List String
  deriving DecidableEq

/-- One parsed result line of a completed job's output file.  custom_id is
none when the JSON object lacks a custom_id key (itemgetter then raises
KeyError); data is none when the response.body.data embedding payload is
missing (the flattening comprehension then raises KeyError). -/
structure RawRecord where
  custom_id : Option String
  data : Option (List EmbeddingVec)
  deriving DecidableEq

/-- Python lexicographic comparison of two character lists (strict less-than,
by code point), the order underlying str comparison and sorted(). -/
def charListLt : List Char → List Char → Bool
  | [], [] => false
  | [], _ :: _ => true
  | _ :: _, [] => false
  | a :: as, b :: bs => if a < b then true else if b < a then false else charListLt as bs

/-- Strict string comparison as Python evaluates s1 < s2. -/
def pyStrLt (a b : String) : Bool := charListLt a.data b.data

/-- Non-strict string comparison as Python evaluates s1 <= s2. -/
def pyStrLe (a b : String) : Bool := !(pyStrLt b a)

/-- Insertion step of the stable ascending sort performed by Python's
sorted(iterable, key=itemgetter("custom_id")): the new element goes in front
of the first element whose key is not below its own. -/
def orderedInsertById (key : α → String) (a : α) : List α → List α
  | [] => [a]
  | b :: bs => if pyStrLe (key a) (key b) then a :: b :: bs else b :: orderedInsertById key a bs

/-- Model of sorted(l, key=...) with a string key: stable insertion sort in
ascending key order. -/
def sortById (key : α → String) : List α → List α
  | [] => []
  | a :: as => orderedInsertById key a (sortById key as)

/-- Model of _get_token_count.  The two tiktoken lookups are external: an
argument of some enc models a tokenizer whose encode succeeds, none models the
lookup raising (the source logs and falls through).  The final fallback is the
rough estimate int(len(text) / 4); Python's float division is exact for every
length below 2 to the 52nd, so it is Nat floor division here.  The returned
count is a Nat, hence a non-negative integer, and the function is total. -/
def _get_token_count (modelEncoding fallbackEncoding : Option (String → List Nat)) :
    String → Nat :=
  match modelEncoding with
  | some enc => fun text => (enc text).length
  | none =>
    match fallbackEncoding with
    | some enc => fun text => (enc text).length
    | none => fun text => text.length / 4

/-- Fuelled worker for _texts_iterator.  The source iterates
range(0, len(lst), chunk_size); one unit of fuel is spent per chunk, and fuel
equal to the list length is always sufficient when chunk_size is positive.
Python raises ValueError for chunk_size = 0, so that case is out of scope and
every theorem about chunking assumes a positive chunk size. -/
def textsIteratorAux (chunk_size : Nat) : Nat → List String → Nat → List (Nat × List String)
  | 0, _, _ => []
  | fuel + 1, lst, i =>
    match lst with
    | [] => []
    | x :: xs =>
      (i, (x :: xs).take chunk_size) ::
        textsIteratorAux chunk_size fuel ((x :: xs).drop chunk_size) (i + chunk_size)

/-- Model of _texts_iterator: yields (i, lst[i : i + chunk_size]) for
i = 0, chunk_size, 2 * chunk_size, ... -/
def _texts_iterator (lst : List String) (chunk_size : Nat) : List (Nat × List String) :=
  textsIteratorAux chunk_size lst.length lst 0

/-- Construction of the custom_id f-string
batch_{uuid}_{batch_idx}_{request_idx} with unpadded decimal indices. -/
def customId (uuid : String) (batch_idx request_idx : Nat) : String :=
  "batch_" ++ uuid ++ "_" ++ toString batch_idx ++ "_" ++ toString request_idx

/-- Model of _request_iterator: one Request per chunk of at most chunk_size
texts, carrying the custom_id and the fixed method, url and body fields of the
serialized JSON object. -/
def _request_iterator (texts : List String) (model uuid : String) (batch_idx chunk_size : Nat) :
    List Request :=
  (_texts_iterator texts chunk_size).map fun p =>
    { custom_id := customId uuid batch_idx p.1
      method := "POST"
      url := "/v1/embeddings"
      body_model := model
      body_input := p.2 }

/-- Worker for _batch_iterator, carrying the loop state (remaining texts,
current_request, current_tokens, batch_idx) explicitly.  It mirrors the source
exactly: when current_tokens + tokens exceeds token_limit the current batch is
yielded even if current_request is empty, and a final non-empty
current_request is flushed after the loop. -/
def batchIteratorAux (model uuid : String) (token_limit chunk_size : Nat)
    (text2tokens : String → Nat) :
    List String → List String → Nat → Nat → List (Nat × List Request)
  | [], current_request, _, batch_idx =>
    if current_request.isEmpty then []
    else [(batch_idx, _request_iterator current_request model uuid batch_idx chunk_size)]
  | text :: rest, current_request, current_tokens, batch_idx =>
    let tokens := text2tokens text
    if current_tokens + tokens > token_limit then
      (batch_idx, _request_iterator current_request model uuid batch_idx chunk_size) ::
        batchIteratorAux model uuid token_limit chunk_size text2tokens
          rest [text] tokens (batch_idx + 1)
    else
      batchIteratorAux model uuid token_limit chunk_size text2tokens
        rest (current_request ++ [text]) (current_tokens + tokens) batch_idx

/-- Model of _batch_iterator.  The source obtains its token counter by calling
_get_token_count(model); that counter involves the external tiktoken library,
so it is passed here as the function text2tokens.  Each yielded pair is
(batch_idx, request list) where the source yields the newline-joined
serialization of the same request list. -/
def _batch_iterator (texts : List String) (model uuid : String) (token_limit chunk_size : Nat)
    (text2tokens : String → Nat) : List (Nat × List Request) :=
  batchIteratorAux model uuid token_limit chunk_size text2tokens texts [] 0 0

/-- Sequencing of a fallible step over a list, modelling a Python loop or
comprehension in which the first raised exception aborts the whole
computation. -/
def mapME (f : α → Except String β) : List α → Except String (List β)
  | [] => .ok []
  | a :: as =>
    match f a with
    | .error e => .error e
    | .ok b =>
      match mapME f as with
      | .error e => .error e
      | .ok bs => .ok (b :: bs)

/-- Model of json.loads on one output line: a malformed line (none) raises
JSONDecodeError. -/
def loadLine : Option RawRecord → Except String RawRecord
  | none => .error "JSONDecodeError"
  | some r => .ok r

/-- Key extraction performed by sorted(..., key=itemgetter("custom_id")): a
record without a custom_id key raises KeyError. -/
def keyedRecord (r : RawRecord) : Except String (String × RawRecord) :=
  match r.custom_id with
  | some c => .ok (c, r)
  | none => .error "KeyError custom_id"

/-- Access to result.response.body.data performed by the flattening
comprehension: a record without the embedding payload raises KeyError. -/
def recordData (r : RawRecord) : Except String (List EmbeddingVec) :=
  match r.data with
  | some d => .ok d
  | none => .error "KeyError response body data"

/-- Model of the result-assembly tail of _process_one_batch (lines 140-146 of
the source): load every line, sort the records by custom_id as plain strings,
and flatten each record's data array in order.  Note that no comparison
against the run's generated custom_id values takes place. -/
def assembleOutput (lines : List (Option RawRecord)) : Except String (List EmbeddingVec) :=
  match mapME loadLine lines with
  | .error e => .error e
  | .ok raw_results =>
    match mapME keyedRecord raw_results with
    | .error e => .error e
    | .ok keyed =>
      match mapME (fun p => recordData p.2) (sortById Prod.fst keyed) with
      | .error e => .error e
      | .ok datas => .ok datas.flatten

/-- Truthiness of output_file_id as tested by the Python condition
if output_file_id and status == "completed": None and the empty string are
falsy. -/
def truthyFileId : Option String → Bool
  | none => false
  | some s => !(s == "")

/-- Test for the terminal failure statuses of the elif branch:
status in ("failed", "expired", "cancelled"). -/
def isTerminalFailure (s : JobStatus) : Bool :=
  s == .failed || s == .expired || s == .cancelled

/-- Model of one un-retried execution of the _process_one_batch body: the
while True polling loop, reading poll i from the poll stream.  It returns
some (ok embeddings) when a poll shows completed with a truthy output file id
(fetch giving that file's parsed lines), some (error ...) when a poll shows a
terminal failure status (the RuntimeError), and none when the loop is still
polling after fuel iterations (each other status only logs and sleeps). -/
def processOneBatchAttempt (polls : Nat → BatchStatus)
    (fetch : String → List (Option RawRecord)) :
    Nat → Nat → Option (Except String (List EmbeddingVec))
  | _, 0 => none
  | i, fuel + 1 =>
    let st := polls i
    if truthyFileId st.output_file_id && st.status == .completed then
      some (assembleOutput (fetch (st.output_file_id.getD "")))
    else if isTerminalFailure st.status then
      some (.error ("Batch Job Failed: " ++ st.status.render))
    else
      processOneBatchAttempt polls fetch (i + 1) fuel

/-- Model of the tenacity decorator retry(stop=stop_after_attempt(5), ...):
the wrapped call is re-executed on any exception; after the fifth attempt the
exception escapes.  The wait_exponential backoff only affects timing, which is
not modelled.  An attempt that never returns (none) makes the whole call never
return. -/
def retriedAux (run : Nat → Option (Except String α)) : Nat → Nat → Option (Except String α)
  | _, 0 => none
  | i, 1 => run i
  | i, remaining + 2 =>
    match run i with
    | none => none
    | some (.ok v) => some (.ok v)
    | some (.error _) => retriedAux run (i + 1) (remaining + 1)

/-- Per-batch environment: the job status seen at poll iteration n of retry
attempt a, and the parsed lines of output file fid as fetched during attempt
a.  Attempts are distinguished because each retry re-uploads the batch and
creates a fresh provider job. -/
structure BatchEnv where
  polls : Nat → Nat → BatchStatus
  fetch : Nat → String → List (Option RawRecord)

/-- Model of the decorated _process_one_batch: up to five attempts of the
polling body, retrying on any raised exception, terminal-failure RuntimeError
included. -/
def _process_one_batch (env : BatchEnv) (fuel : Nat) :
    Option (Except String (List EmbeddingVec)) :=
  retriedAux (fun attempt => processOneBatchAttempt (env.polls attempt) (env.fetch attempt) 0 fuel)
    0 5

/-- Sequential processing of the planned batches, modelling the list
comprehension of _request_async_embedding: batches run strictly in list order,
the first batch that raises aborts the run, and a batch that never returns
makes the run never return.  Successful per-batch embedding lists are
concatenated in batch order. -/
def asyncBatches (runBatch : Nat × List Request → Option (Except String (List EmbeddingVec))) :
    List (Nat × List Request) → Option (Except String (List EmbeddingVec))
  | [] => some (.ok [])
  | b :: bs =>
    match runBatch b with
    | none => none
    | some (.error e) => some (.error e)
    | some (.ok embs) =>
      match asyncBatches runBatch bs with
      | none => none
      | some (.error e) => some (.error e)
      | some (.ok rest) => some (.ok (embs ++ rest))

/-- Model of _request_async_embedding: plan the batches with _batch_iterator
(chunk_size takes its default 2048 on this call path) and run them in order
through _process_one_batch.  The uuid argument models uuid4().hex; key, url,
completion_window and wait_interval only parameterize transport and timing and
are absorbed into the per-batch environments. -/
def _request_async_embedding (model uuid : String) (texts : List String)
    (text2tokens : String → Nat) (env : Nat → BatchEnv) (fuel token_limit : Nat) :
    Option (Except String (List EmbeddingVec)) :=
  asyncBatches (fun b => _process_one_batch (env b.1) fuel)
    (_batch_iterator texts model uuid token_limit 2048 text2tokens)

/-- Model of generate_openai_batch_embeddings.  The synchronous endpoint call
(_request_sync_embedding, external HTTP) is modelled by its final outcome
syncOutcome after its own retries.  The try/except of the source converts any
raised exception of either path into the return value None, modelled by
Except.toOption; token_limit takes its default 1,000,000 on this call path.
The outer Option is none when the chosen path never returns. -/
def generate_openai_batch_embeddings (model uuid : String) (texts : List String)
    (syncOutcome : Except String (List EmbeddingVec)) (text2tokens : String → Nat)
    (env : Nat → BatchEnv) (fuel : Nat) : Option (Option (List EmbeddingVec)) :=
  if (texts.map String.length).sum < 500000 then
    some syncOutcome.toOption
  else
    (_request_async_embedding model uuid texts text2tokens env fuel 1000000).map Except.toOption

/-! Helper lemmas about the chunk iterator. -/

theorem textsIteratorAux_nil (cs fuel i : Nat) : textsIteratorAux cs fuel [] i = [] := by
  cases fuel <;> rfl

theorem textsIteratorAux_congr (cs : Nat) (hc : 0 < cs) :
    ∀ (fuel₁ : Nat) (l : List String) (fuel₂ i : Nat), l.length ≤ fuel₁ → l.length ≤ fuel₂ →
      textsIteratorAux cs fuel₁ l i = textsIteratorAux cs fuel₂ l i := by
  intro fuel₁
  induction fuel₁ with
  | zero =>
    intro l fuel₂ i h₁ _
    have : l = [] := List.length_eq_zero.mp (Nat.le_zero.mp h₁)
    subst this
    rw [textsIteratorAux_nil, textsIteratorAux_nil]
  | succ f ih =>
    intro l fuel₂ i h₁ h₂
    cases l with
    | nil => rw [textsIteratorAux_nil, textsIteratorAux_nil]
    | cons x xs =>
      cases fuel₂ with
      | zero => simp at h₂
      | succ f₂ =>
        show (i, (x :: xs).take cs) :: textsIteratorAux cs f ((x :: xs).drop cs) (i + cs) =
          (i, (x :: xs).take cs) :: textsIteratorAux cs f₂ ((x :: xs).drop cs) (i + cs)
        have hd : ((x :: xs).drop cs).length = (x :: xs).length - cs := List.length_drop cs _
        have hlen : (x :: xs).length = xs.length + 1 := rfl
        congr 1
        apply ih
        · omega
        · omega

/-- Chunk iterator starting at offset i, with canonical fuel. -/
def chunksFrom (cs : Nat) (l : List String) (i : Nat) : List (Nat × List String) :=
  textsIteratorAux cs l.length l i

theorem texts_iterator_eq_chunksFrom (l : List String) (cs : Nat) :
    _texts_iterator l cs = chunksFrom cs l 0 := rfl

theorem chunksFrom_nil (cs i : Nat) : chunksFrom cs [] i = [] := rfl

theorem chunksFrom_step (cs : Nat) (hc : 0 < cs) (l : List String) (i : Nat) (hl : l ≠ []) :
    chunksFrom cs l i = (i, l.take cs) :: chunksFrom cs (l.drop cs) (i + cs) := by
  cases l with
  | nil => exact absurd rfl hl
  | cons x xs =>
    show textsIteratorAux cs (xs.length + 1) (x :: xs) i = _
    show (i, (x :: xs).take cs) :: textsIteratorAux cs xs.length ((x :: xs).drop cs) (i + cs) = _
    congr 1
    apply textsIteratorAux_congr cs hc
    · have : ((x :: xs).drop cs).length = (x :: xs).length - cs := List.length_drop cs _
      have hlen : (x :: xs).length = xs.length + 1 := rfl
      omega
    · exact Nat.le_refl _

theorem chunksFrom_flatten (cs : Nat) (hc : 0 < cs) :
    ∀ (fuel : Nat) (l : List String) (i : Nat), l.length ≤ fuel →
      ((textsIteratorAux cs fuel l i).map Prod.snd).flatten = l := by
  intro fuel
  induction fuel with
  | zero =>
    intro l i h
    have : l = [] := List.length_eq_zero.mp (Nat.le_zero.mp h)
    subst this
    rfl
  | succ f ih =>
    intro l i h
    cases l with
    | nil => rfl
    | cons x xs =>
      show ((x :: xs).take cs ++ ((textsIteratorAux cs f ((x :: xs).drop cs) (i + cs)).map
        Prod.snd).flatten) = x :: xs
      rw [ih ((x :: xs).drop cs) (i + cs) (by
        have : ((x :: xs).drop cs).length = (x :: xs).length - cs := List.length_drop cs _
        have hlen : (x :: xs).length = xs.length + 1 := rfl
        omega)]
      exact List.take_append_drop cs (x :: xs)

/-- Texts carried by a request list: the concatenation of the chunk inputs. -/
def requestTexts (reqs : List Request) : List String :=
  (reqs.map Request.body_input).flatten

theorem requestTexts_request_iterator (l : List String) (model uuid : String)
    (batch_idx cs : Nat) (hc : 0 < cs) :
    requestTexts (_request_iterator l model uuid batch_idx cs) = l := by
  unfold requestTexts _request_iterator
  rw [List.map_map]
  have : (Request.body_input ∘ fun p : Nat × List String =>
      ({ custom_id := customId uuid batch_idx p.1, method := "POST", url := "/v1/embeddings",
         body_model := model, body_input := p.2 } : Request)) = Prod.snd := rfl
  rw [this]
  exact chunksFrom_flatten cs hc l.length l 0 (Nat.le_refl _)

/-! Helper lemmas about the batch planner. -/

theorem batchIteratorAux_single (model uuid : String) (limit cs : Nat) (tok : String → Nat) :
    ∀ (texts current : List String) (curTok bIdx : Nat),
      curTok + (texts.map tok).sum ≤ limit →
      current ≠ [] ∨ texts ≠ [] →
      batchIteratorAux model uuid limit cs tok texts current curTok bIdx =
        [(bIdx, _request_iterator (current ++ texts) model uuid bIdx cs)] := by
  intro texts
  induction texts with
  | nil =>
    intro current curTok bIdx _ hne
    have hcur : current ≠ [] := by
      rcases hne with h | h
      · exact h
      · exact absurd rfl h
    show (if current.isEmpty then [] else
      [(bIdx, _request_iterator current model uuid bIdx cs)]) = _
    rw [if_neg (by simpa [List.isEmpty_iff] using hcur)]
    rw [List.append_nil]
  | cons t ts ih =>
    intro current curTok bIdx hsum hne
    have hle : ¬ curTok + tok t > limit := by
      simp only [List.map_cons, List.sum_cons] at hsum
      omega
    show (if curTok + tok t > limit then _ else
      batchIteratorAux model uuid limit cs tok ts (current ++ [t]) (curTok + tok t) bIdx) = _
    rw [if_neg hle]
    rw [ih (current ++ [t]) (curTok + tok t) bIdx
      (by simp only [List.map_cons, List.sum_cons] at hsum; omega)
      (Or.inl (by simp))]
    rw [List.append_assoc, List.singleton_append]

theorem batchIteratorAux_sound (model uuid : String) (limit cs : Nat) (tok : String → Nat)
    (hc : 0 < cs) :
    ∀ (texts current : List String) (bIdx : Nat),
      ((current.map tok).sum ≤ limit ∨ ∃ t, current = [t] ∧ limit < tok t) →
      ∀ p ∈ batchIteratorAux model uuid limit cs tok texts current ((current.map tok).sum) bIdx,
        ((requestTexts p.2).map tok).sum ≤ limit ∨
          ∃ t, requestTexts p.2 = [t] ∧ limit < tok t := by
  intro texts
  induction texts with
  | nil =>
    intro current bIdx hinv p hp
    by_cases hcur : current.isEmpty
    · simp only [batchIteratorAux, if_pos hcur] at hp
      exact absurd hp (List.not_mem_nil p)
    · simp only [batchIteratorAux, if_neg hcur, List.mem_singleton] at hp
      subst hp
      rw [requestTexts_request_iterator current model uuid bIdx cs hc]
      exact hinv
  | cons t ts ih =>
    intro current bIdx hinv p hp
    by_cases hgt : (current.map tok).sum + tok t > limit
    · simp only [batchIteratorAux, if_pos hgt, List.mem_cons] at hp
      rcases hp with hp | hp
      · subst hp
        rw [requestTexts_request_iterator current model uuid bIdx cs hc]
        exact hinv
      · have := ih [t] (bIdx + 1) ?_ p ?_
        · exact this
        · rcases le_or_lt (tok t) limit with h | h
          · exact Or.inl (by simpa using h)
          · exact Or.inr ⟨t, rfl, h⟩
        · simpa using hp
    · simp only [batchIteratorAux, if_neg hgt] at hp
      have hrw : (current.map tok).sum + tok t = (((current ++ [t]).map tok).sum) := by
        simp
      rw [hrw] at hp
      have := ih (current ++ [t]) bIdx (Or.inl (by simp at hgt ⊢; omega)) p hp
      exact this

theorem batchIteratorAux_indices (model uuid : String) (limit cs : Nat) (tok : String → Nat) :
    ∀ (texts current : List String) (curTok bIdx : Nat),
      (batchIteratorAux model uuid limit cs tok texts current curTok bIdx).map Prod.fst =
        List.range' bIdx (batchIteratorAux model uuid limit cs tok texts current curTok bIdx).length := by
  intro texts
  induction texts with
  | nil =>
    intro current curTok bIdx
    have hunf : batchIteratorAux model uuid limit cs tok [] current curTok bIdx =
        (if current.isEmpty then [] else
          [(bIdx, _request_iterator current model uuid bIdx cs)]) := rfl
    rw [hunf]
    by_cases hcur : current.isEmpty
    · rw [if_pos hcur]; rfl
    · rw [if_neg hcur]; rfl
  | cons t ts ih =>
    intro current curTok bIdx
    by_cases hgt : curTok + tok t > limit
    · simp only [batchIteratorAux, if_pos hgt, List.map_cons, List.length_cons]
      rw [List.range'_succ]
      rw [ih [t] (tok t) (bIdx + 1)]
    · simp only [batchIteratorAux, if_neg hgt]
      exact ih (current ++ [t]) (curTok + tok t) bIdx

/-! Helper lemmas about sequential batch processing. -/

theorem asyncBatches_all_ok
    (runBatch : Nat × List Request → Option (Except String (List EmbeddingVec)))
    (f : Nat × List Request → List EmbeddingVec) :
    ∀ bs : List (Nat × List Request), (∀ b ∈ bs, runBatch b = some (.ok (f b))) →
      asyncBatches runBatch bs = some (.ok ((bs.map f).flatten)) := by
  intro bs
  induction bs with
  | nil => intro _; rfl
  | cons b rest ih =>
    intro h
    have hb : runBatch b = some (.ok (f b)) := h b (List.mem_cons_self b rest)
    have hrest := ih (fun b' hb' => h b' (List.mem_cons_of_mem b hb'))
    show (match runBatch b with
      | none => none
      | some (Except.error e) => some (Except.error e)
      | some (Except.ok embs) =>
        match asyncBatches runBatch rest with
        | none => none
        | some (Except.error e) => some (Except.error e)
        | some (Except.ok r) => some (Except.ok (embs ++ r))) = _
    rw [hb, hrest]
    rfl

/-- Canonical per-batch result extractor used to state inversion facts. -/
def batchResult (runBatch : Nat × List Request → Option (Except String (List EmbeddingVec)))
    (b : Nat × List Request) : List EmbeddingVec :=
  match runBatch b with
  | some (.ok v) => v
  | _ => []

theorem asyncBatches_ok_inv
    (runBatch : Nat × List Request → Option (Except String (List EmbeddingVec))) :
    ∀ (bs : List (Nat × List Request)) (l : List EmbeddingVec),
      asyncBatches runBatch bs = some (.ok l) →
      (∀ b ∈ bs, ∃ v, runBatch b = some (.ok v)) ∧
        l = ((bs.map (batchResult runBatch)).flatten) := by
  intro bs
  induction bs with
  | nil =>
    intro l h
    have : l = [] := by
      have : some (Except.ok ([] : List EmbeddingVec)) = some (.ok l) := h
      cases this
      rfl
    subst this
    exact ⟨fun b hb => absurd hb (List.not_mem_nil b), rfl⟩
  | cons b rest ih =>
    intro l h
    have hunf : asyncBatches runBatch (b :: rest) =
        (match runBatch b with
        | none => none
        | some (.error e) => some (.error e)
        | some (.ok embs) =>
          match asyncBatches runBatch rest with
          | none => none
          | some (.error e) => some (.error e)
          | some (.ok r) => some (.ok (embs ++ r))) := rfl
    rw [hunf] at h
    cases hrb : runBatch b with
    | none => rw [hrb] at h; exact absurd h (by simp)
    | some outcome =>
      cases outcome with
      | error e => rw [hrb] at h; exact absurd h (by simp)
      | ok embs =>
        rw [hrb] at h
        cases hrest : asyncBatches runBatch rest with
        | none => rw [hrest] at h; exact absurd h (by simp)
        | some outcome₂ =>
          cases outcome₂ with
          | error e => rw [hrest] at h; exact absurd h (by simp)
          | ok r =>
            rw [hrest] at h
            have hl : l = embs ++ r := by
              have : some (Except.ok (embs ++ r)) = some (.ok l) := h
              cases this
              rfl
            obtain ⟨hall, hr⟩ := ih r hrest
            constructor
            · intro b' hb'
              rcases List.mem_cons.mp hb' with hb' | hb'
              · exact ⟨embs, hb' ▸ hrb⟩
              · exact hall b' hb'
            · rw [hl, hr]
              have hbres : batchResult runBatch b = embs := by
                unfold batchResult
                rw [hrb]
              rw [List.map_cons, List.flatten_cons, hbres]

/-! Helper lemmas about fallible sequencing and result parsing. -/

theorem mapME_error_iff (f : α → Except String β) :
    ∀ l : List α, (∃ e, mapME f l = .error e) ↔ ∃ a ∈ l, ∃ e, f a = .error e := by
  intro l
  induction l with
  | nil =>
    constructor
    · rintro ⟨e, he⟩; exact absurd he (by simp [mapME])
    · rintro ⟨a, ha, _⟩; exact absurd ha (List.not_mem_nil a)
  | cons a as ih =>
    constructor
    · rintro ⟨e, he⟩
      simp only [mapME] at he
      cases hfa : f a with
      | error e' => exact ⟨a, List.mem_cons_self a as, e', hfa⟩
      | ok b =>
        rw [hfa] at he
        cases hrest : mapME f as with
        | error e' =>
          obtain ⟨a', ha', he'⟩ := ih.mp ⟨e', hrest⟩
          exact ⟨a', List.mem_cons_of_mem a ha', he'⟩
        | ok bs => rw [hrest] at he; exact absurd he (by simp)
    · rintro ⟨a', ha', e', he'⟩
      rcases List.mem_cons.mp ha' with h | h
      · subst h
        refine ⟨e', ?_⟩
        simp only [mapME, he']
      · obtain ⟨e, he⟩ := ih.mpr ⟨a', h, e', he'⟩
        simp only [mapME]
        cases hfa : f a with
        | error e₀ => exact ⟨e₀, rfl⟩
        | ok b => rw [he]; exact ⟨e, rfl⟩

theorem mapME_loadLine_ok_iff :
    ∀ (lines : List (Option RawRecord)) (rs : List RawRecord),
      mapME loadLine lines = .ok rs ↔ lines = rs.map some := by
  intro lines
  induction lines with
  | nil =>
    intro rs
    constructor
    · intro h
      have : Except.ok ([] : List RawRecord) = Except.ok rs := h
      cases this
      rfl
    · intro h
      cases rs with
      | nil => rfl
      | cons r rs' => exact absurd h (by simp)
  | cons o os ih =>
    intro rs
    cases o with
    | none =>
      constructor
      · intro h; exact absurd h (by simp [mapME, loadLine])
      · intro h
        cases rs with
        | nil => exact absurd h (by simp)
        | cons r rs' => simp at h
    | some r =>
      constructor
      · intro h
        simp only [mapME, loadLine] at h
        cases hrest : mapME loadLine os with
        | error e => rw [hrest] at h; exact absurd h (by simp)
        | ok bs =>
          rw [hrest] at h
          have : Except.ok (r :: bs) = Except.ok rs := h
          cases this
          rw [List.map_cons, ← (ih bs).mp hrest]
      · intro h
        cases rs with
        | nil => exact absurd h (by simp)
        | cons r' rs' =>
          simp only [List.map_cons, List.cons.injEq, Option.some.injEq] at h
          obtain ⟨h₁, h₂⟩ := h
          subst h₁
          simp only [mapME, loadLine]
          rw [(ih rs').mpr h₂]

theorem mapME_keyed_ok :
    ∀ (rs : List RawRecord) (ks : List (String × RawRecord)),
      mapME keyedRecord rs = .ok ks →
      rs = ks.map Prod.snd ∧ ∀ p ∈ ks, p.2.custom_id = some p.1 := by
  intro rs
  induction rs with
  | nil =>
    intro ks h
    have : Except.ok ([] : List (String × RawRecord)) = Except.ok ks := h
    cases this
    exact ⟨rfl, fun p hp => absurd hp (List.not_mem_nil p)⟩
  | cons r rs' ih =>
    intro ks h
    simp only [mapME] at h
    cases hkr : keyedRecord r with
    | error e => rw [hkr] at h; exact absurd h (by simp)
    | ok p =>
      rw [hkr] at h
      cases hrest : mapME keyedRecord rs' with
      | error e => rw [hrest] at h; exact absurd h (by simp)
      | ok ks' =>
        rw [hrest] at h
        have : Except.ok (p :: ks') = Except.ok ks := h
        cases this
        obtain ⟨h₁, h₂⟩ := ih ks' hrest
        have hp : p.2 = r ∧ r.custom_id = some p.1 := by
          unfold keyedRecord at hkr
          cases hcid : r.custom_id with
          | none => rw [hcid] at hkr; exact absurd hkr (by simp)
          | some c =>
            rw [hcid] at hkr
            have hpe : ((c, r) : String × RawRecord) = p := by
              cases hkr
              rfl
            subst hpe
            exact ⟨rfl, by simp [hcid]⟩
        constructor
        · rw [List.map_cons, hp.1, ← h₁]
        · intro q hq
          rcases List.mem_cons.mp hq with hq | hq
          · subst hq; rw [hp.1]; exact hp.2
          · exact h₂ q hq

theorem mem_orderedInsertById (key : α → String) (a x : α) :
    ∀ l : List α, x ∈ orderedInsertById key a l ↔ x = a ∨ x ∈ l := by
  intro l
  induction l with
  | nil => simp [orderedInsertById]
  | cons b bs ih =>
    by_cases h : pyStrLe (key a) (key b)
    · simp [orderedInsertById, h, List.mem_cons]
    · simp only [orderedInsertById, if_neg h, List.mem_cons, ih]
      tauto

theorem mem_sortById (key : α → String) (x : α) :
    ∀ l : List α, x ∈ sortById key l ↔ x ∈ l := by
  intro l
  induction l with
  | nil => simp [sortById]
  | cons a as ih =>
    simp only [sortById, mem_orderedInsertById, ih, List.mem_cons]

/-! Concrete run on which the custom_id string sort mis-orders the chunks.

10241 texts whose heuristic token counts sum to 2049 form a single batch, so
_batch_iterator emits one batch whose six request chunks start at offsets
0, 2048, 4096, 6144, 8192 and 10240.  Sorting the custom_id values as plain
strings puts batch_u_0_10240 before batch_u_0_2048, so the last chunk's
embeddings are spliced in at position 2048 of the result.  The provider model
answers every chunk with one embedding per text in the chunk's internal
order. -/

/-- Input texts: five runs of 2048 equal strings of lengths 0 to 4, then one
final string of length 5 (10241 texts in total). -/
def ceTexts : List String :=
  List.replicate 2048 "" ++ (List.replicate 2048 "a" ++ (List.replicate 2048 "aa" ++
    (List.replicate 2048 "aaa" ++ (List.replicate 2048 "aaaa" ++ ["aaaaa"]))))

/-- Per-text embedding the modelled provider computes: the text's length as a
one-entry vector. -/
def perTextEmbedding (t : String) : EmbeddingVec := [t.length]

/-- Provider response for one request chunk: one embedding per input text of
the chunk, in the chunk's internal order (all texts of a chunk of ceTexts are
equal, so their common length identifies the chunk). -/
def ceRespond (r : Request) : List EmbeddingVec :=
  List.replicate r.body_input.length [(r.body_input.headD "").length]

/-- Token counter of the run: the heuristic fallback of _get_token_count. -/
def ceHeuristic : String → Nat := _get_token_count none none

/-- Request chunks of the run's single batch. -/
def ceRequests : List Request := _request_iterator ceTexts "m" "u" 0 2048

/-- Parsed output lines the provider returns for the single batch: one
well-formed record per request chunk, in submission order. -/
def ceLines : List (Option RawRecord) :=
  ceRequests.map fun r => some { custom_id := some r.custom_id, data := some (ceRespond r) }

/-- Environment of the run: every poll shows the job completed with output
file out, and fetching it yields ceLines. -/
def ceEnv : Nat → BatchEnv := fun _ =>
  { polls := fun _ _ => { status := .completed, output_file_id := some "out" }
    fetch := fun _ _ => ceLines }

/-- List the code actually returns: the last chunk's embedding is spliced in
at position 2048 because batch_u_0_10240 sorts before batch_u_0_2048. -/
def ceActualOut : List EmbeddingVec :=
  List.replicate 2048 [0] ++ ([[5]] ++ (List.replicate 2048 [1] ++ (List.replicate 2048 [2] ++
    (List.replicate 2048 [3] ++ List.replicate 2048 [4]))))

/-- List the claim requires: the embedding of text k at position k. -/
def ceOrderedOut : List EmbeddingVec :=
  List.replicate 2048 [0] ++ (List.replicate 2048 [1] ++ (List.replicate 2048 [2] ++
    (List.replicate 2048 [3] ++ (List.replicate 2048 [4] ++ [[5]]))))

/-- Request constructor of the concrete run (model name m). -/
def mkReq (cid : String) (inputs : List String) : Request :=
  { custom_id := cid
    method := "POST"
    url := "/v1/embeddings"
    body_model := "m"
    body_input := inputs }

theorem repAppend_ne_nil (s : String) (X : List String) :
    List.replicate 2048 s ++ X ≠ [] := by
  apply List.ne_nil_of_length_pos
  rw [List.length_append, List.length_replicate]
  omega

theorem headD_replicate (n : Nat) (a d : String) (h : 0 < n) :
    (List.replicate n a).headD d = a := by
  cases n with
  | zero => omega
  | succ m => rfl

theorem ceChunks : _texts_iterator ceTexts 2048 =
    [(0, List.replicate 2048 ""), (2048, List.replicate 2048 "a"),
     (4096, List.replicate 2048 "aa"), (6144, List.replicate 2048 "aaa"),
     (8192, List.replicate 2048 "aaaa"), (10240, ["aaaaa"])] := by
  have hc : 0 < 2048 := by norm_num
  have hlen : ∀ s : String, (List.replicate 2048 s).length = 2048 := fun s =>
    List.length_replicate 2048 s
  rw [texts_iterator_eq_chunksFrom, ceTexts]
  rw [chunksFrom_step 2048 hc _ 0 (repAppend_ne_nil _ _),
    List.take_left' (hlen ""), List.drop_left' (hlen "")]
  rw [chunksFrom_step 2048 hc _ _ (repAppend_ne_nil _ _),
    List.take_left' (hlen "a"), List.drop_left' (hlen "a")]
  rw [chunksFrom_step 2048 hc _ _ (repAppend_ne_nil _ _),
    List.take_left' (hlen "aa"), List.drop_left' (hlen "aa")]
  rw [chunksFrom_step 2048 hc _ _ (repAppend_ne_nil _ _),
    List.take_left' (hlen "aaa"), List.drop_left' (hlen "aaa")]
  rw [chunksFrom_step 2048 hc _ _ (repAppend_ne_nil _ _),
    List.take_left' (hlen "aaaa"), List.drop_left' (hlen "aaaa")]
  rw [chunksFrom_step 2048 hc _ _ (by simp),
    List.take_of_length_le (by simp), List.drop_eq_nil_of_le (by simp), chunksFrom_nil]

theorem ceRequests_eq : ceRequests =
    [mkReq "batch_u_0_0" (List.replicate 2048 ""),
     mkReq "batch_u_0_2048" (List.replicate 2048 "a"),
     mkReq "batch_u_0_4096" (List.replicate 2048 "aa"),
     mkReq "batch_u_0_6144" (List.replicate 2048 "aaa"),
     mkReq "batch_u_0_8192" (List.replicate 2048 "aaaa"),
     mkReq "batch_u_0_10240" ["aaaaa"]] := by
  unfold ceRequests _request_iterator
  rw [ceChunks]
  rfl

theorem ceLines_eq : ceLines =
    [some { custom_id := some "batch_u_0_0", data := some (List.replicate 2048 [0]) },
     some { custom_id := some "batch_u_0_2048", data := some (List.replicate 2048 [1]) },
     some { custom_id := some "batch_u_0_4096", data := some (List.replicate 2048 [2]) },
     some { custom_id := some "batch_u_0_6144", data := some (List.replicate 2048 [3]) },
     some { custom_id := some "batch_u_0_8192", data := some (List.replicate 2048 [4]) },
     some { custom_id := some "batch_u_0_10240", data := some [[5]] }] := by
  have hresp : ∀ (cid s : String), ceRespond (mkReq cid (List.replicate 2048 s)) =
      List.replicate 2048 [s.length] := by
    intro cid s
    unfold ceRespond mkReq
    simp only [List.length_replicate]
    rw [headD_replicate 2048 s "" (by norm_num)]
  unfold ceLines
  rw [ceRequests_eq]
  simp only [List.map_cons, List.map_nil, hresp]
  rfl

theorem pyStrLe_0_10240 : pyStrLe "batch_u_0_0" "batch_u_0_10240" = true := by decide

theorem pyStrLe_2048_4096 : pyStrLe "batch_u_0_2048" "batch_u_0_4096" = true := by decide

theorem pyStrLe_2048_10240 : pyStrLe "batch_u_0_2048" "batch_u_0_10240" = false := by decide

theorem pyStrLe_4096_6144 : pyStrLe "batch_u_0_4096" "batch_u_0_6144" = true := by decide

theorem pyStrLe_4096_10240 : pyStrLe "batch_u_0_4096" "batch_u_0_10240" = false := by decide

theorem pyStrLe_6144_8192 : pyStrLe "batch_u_0_6144" "batch_u_0_8192" = true := by decide

theorem pyStrLe_6144_10240 : pyStrLe "batch_u_0_6144" "batch_u_0_10240" = false := by decide

theorem pyStrLe_8192_10240 : pyStrLe "batch_u_0_8192" "batch_u_0_10240" = false := by decide

theorem ceAssembled : assembleOutput ceLines = .ok ceActualOut := by
  rw [ceLines_eq]
  unfold assembleOutput
  simp only [mapME, loadLine, keyedRecord, recordData, sortById, orderedInsertById,
    pyStrLe_0_10240, pyStrLe_2048_4096, pyStrLe_2048_10240, pyStrLe_4096_6144,
    pyStrLe_4096_10240, pyStrLe_6144_8192, pyStrLe_6144_10240, pyStrLe_8192_10240,
    Bool.false_eq_true, if_true, if_false, ite_true, ite_false,
    List.flatten_cons, List.flatten_nil, List.append_nil, List.append_assoc]
  rfl

theorem ceSum : (ceTexts.map ceHeuristic).sum = 2049 := by
  have h0 : ceHeuristic "" = 0 := rfl
  have h1 : ceHeuristic "a" = 0 := rfl
  have h2 : ceHeuristic "aa" = 0 := rfl
  have h3 : ceHeuristic "aaa" = 0 := rfl
  have h4 : ceHeuristic "aaaa" = 1 := rfl
  have h5 : ceHeuristic "aaaaa" = 1 := rfl
  unfold ceTexts
  simp only [List.map_append, List.map_replicate, List.map_cons, List.map_nil,
    List.sum_append, List.sum_replicate, h0, h1, h2, h3, h4, h5, smul_eq_mul]
  norm_num

theorem ceTexts_ne_nil : ceTexts ≠ [] := repAppend_ne_nil "" _

theorem ceBatches : _batch_iterator ceTexts "m" "u" 1000000 2048 ceHeuristic =
    [(0, ceRequests)] := by
  unfold _batch_iterator
  have h := batchIteratorAux_single "m" "u" 1000000 2048 ceHeuristic ceTexts [] 0 0
    (by rw [Nat.zero_add, ceSum]; norm_num) (Or.inr ceTexts_ne_nil)
  rw [h, List.nil_append]
  rfl

theorem processOneBatchAttempt_succ (polls : Nat → BatchStatus)
    (fetch : String → List (Option RawRecord)) (i fuel : Nat) :
    processOneBatchAttempt polls fetch i (fuel + 1) =
      (if truthyFileId (polls i).output_file_id && (polls i).status == JobStatus.completed then
        some (assembleOutput (fetch ((polls i).output_file_id.getD "")))
      else if isTerminalFailure (polls i).status then
        some (.error ("Batch Job Failed: " ++ (polls i).status.render))
      else processOneBatchAttempt polls fetch (i + 1) fuel) := rfl

theorem retriedAux_two (run : Nat → Option (Except String α)) (i remaining : Nat) :
    retriedAux run i (remaining + 2) =
      (match run i with
      | none => none
      | some (Except.ok v) => some (Except.ok v)
      | some (Except.error _) => retriedAux run (i + 1) (remaining + 1)) := rfl

theorem asyncBatches_cons
    (runBatch : Nat × List Request → Option (Except String (List EmbeddingVec)))
    (b : Nat × List Request) (bs : List (Nat × List Request)) :
    asyncBatches runBatch (b :: bs) =
      (match runBatch b with
      | none => none
      | some (Except.error e) => some (Except.error e)
      | some (Except.ok embs) =>
        match asyncBatches runBatch bs with
        | none => none
        | some (Except.error e) => some (Except.error e)
        | some (Except.ok rest) => some (Except.ok (embs ++ rest))) := rfl

theorem asyncBatches_nil
    (runBatch : Nat × List Request → Option (Except String (List EmbeddingVec))) :
    asyncBatches runBatch [] = some (.ok []) := rfl

theorem ceAttempt : processOneBatchAttempt ((ceEnv 0).polls 0) ((ceEnv 0).fetch 0) 0 1 =
    some (.ok ceActualOut) := by
  rw [show (1 : Nat) = 0 + 1 from rfl, processOneBatchAttempt_succ]
  have hp : (ceEnv 0).polls 0 0 = { status := .completed, output_file_id := some "out" } := rfl
  have hf : (ceEnv 0).fetch 0 "out" = ceLines := by
    unfold ceEnv
    with_reducible rfl
  rw [hp]
  simp only [truthyFileId, isTerminalFailure]
  rw [show ((!("out" == "")) && (JobStatus.completed == JobStatus.completed)) = true from rfl,
    if_pos rfl]
  rw [show (some "out").getD "" = "out" from rfl, hf, ceAssembled]

theorem ceProcess : _process_one_batch (ceEnv 0) 1 = some (.ok ceActualOut) := by
  unfold _process_one_batch
  rw [show (5 : Nat) = 3 + 2 from rfl, retriedAux_two]
  rw [ceAttempt]

theorem cePipeline :
    _request_async_embedding "m" "u" ceTexts ceHeuristic ceEnv 1 1000000 =
      some (.ok ceActualOut) := by
  unfold _request_async_embedding
  rw [ceBatches, asyncBatches_cons, asyncBatches_nil]
  simp only []
  rw [ceProcess]
  simp only [List.append_nil]

theorem ceMap : ceTexts.map perTextEmbedding = ceOrderedOut := by
  have h0 : perTextEmbedding "" = [0] := rfl
  have h1 : perTextEmbedding "a" = [1] := rfl
  have h2 : perTextEmbedding "aa" = [2] := rfl
  have h3 : perTextEmbedding "aaa" = [3] := rfl
  have h4 : perTextEmbedding "aaaa" = [4] := rfl
  have h5 : perTextEmbedding "aaaaa" = [5] := rfl
  unfold ceTexts ceOrderedOut
  simp only [List.map_append, List.map_replicate, List.map_cons, List.map_nil,
    h0, h1, h2, h3, h4, h5]

theorem ceProviderShape : ceLines = ceRequests.map fun r =>
    some { custom_id := some r.custom_id, data := some (r.body_input.map perTextEmbedding) } := by
  rw [ceLines_eq, ceRequests_eq]
  simp only [List.map_cons, List.map_nil, List.map_replicate, mkReq]
  rfl

theorem ceLen : ceActualOut.length = ceTexts.length := by
  unfold ceActualOut ceTexts
  simp only [List.length_append, List.length_replicate, List.length_cons, List.length_nil]

theorem ceActual_get : ceActualOut[2048]? = some [5] := by
  unfold ceActualOut
  rw [List.getElem?_append_right (by simp [-List.reduceReplicate])]
  simp only [List.length_replicate, Nat.sub_self]
  rw [List.singleton_append, List.getElem?_cons_zero]

theorem ceOrdered_get : ceOrderedOut[2048]? = some [1] := by
  unfold ceOrderedOut
  rw [List.getElem?_append_right (by simp [-List.reduceReplicate])]
  simp only [List.length_replicate, Nat.sub_self]
  rw [List.getElem?_append_left (by simp [-List.reduceReplicate])]
  rw [List.getElem?_replicate, if_pos (by norm_num)]

/-! Claim theorems. -/

/-- C1: the claim states that _request_async_embedding returns one embedding
per input text with position k holding the embedding of text k, for every
input and provider that answers each chunk with one embedding per text in
chunk order.  This theorem shows the claim is false on the code: on the 10241
concrete texts ceTexts (one planned batch, six chunks at offsets 0, 2048,
4096, 6144, 8192, 10240) with a conforming provider, the run succeeds and
preserves the count, but position 2048 of the result holds the embedding of
the final text (value [5]) instead of the embedding of text 2048 (value [1]),
because the custom_id batch_u_0_10240 sorts before batch_u_0_2048 as a plain
string.  This contradicts the source comment that sorting by custom_id
"ensures that the embeddings are returned in the same order as the input
texts". -/
theorem claim_C1 :
    _request_async_embedding "m" "u" ceTexts ceHeuristic ceEnv 1 1000000 =
        some (.ok ceActualOut)
    ∧ ceLines = (ceRequests.map fun r =>
        some { custom_id := some r.custom_id, data := some (r.body_input.map perTextEmbedding) })
    ∧ ceTexts.map perTextEmbedding = ceOrderedOut
    ∧ ceActualOut.length = ceTexts.length
    ∧ ceActualOut[2048]? = some [5]
    ∧ ceOrderedOut[2048]? = some [1]
    ∧ ceActualOut ≠ ceTexts.map perTextEmbedding := by
  refine ⟨cePipeline, ceProviderShape, ceMap, ceLen, ceActual_get, ceOrdered_get, ?_⟩
  intro h
  rw [ceMap] at h
  have h2 := congrArg (fun l => l[2048]?) h
  simp only at h2
  rw [ceActual_get, ceOrdered_get] at h2
  exact absurd h2 (by simp)

/-- C2: the claim states that the generated custom_id strings, sorted as plain
strings, reproduce the ascending construction order of the chunks.  This
theorem shows the claim is false on the code: for the single batch of the
ceTexts run (chunk starting offsets 0, 2048, 4096, 6144, 8192, 10240 under
the default chunk size 2048), the string sort moves batch_u_0_10240 in front
of batch_u_0_2048, so the sorted order differs from the construction order,
contradicting the source comment that the custom_id is used to order the
embeddings. -/
theorem claim_C2 :
    ceRequests.map Request.custom_id =
      ["batch_u_0_0", "batch_u_0_2048", "batch_u_0_4096", "batch_u_0_6144",
       "batch_u_0_8192", "batch_u_0_10240"]
    ∧ sortById id (ceRequests.map Request.custom_id) =
      ["batch_u_0_0", "batch_u_0_10240", "batch_u_0_2048", "batch_u_0_4096",
       "batch_u_0_6144", "batch_u_0_8192"]
    ∧ sortById id (ceRequests.map Request.custom_id) ≠ ceRequests.map Request.custom_id := by
  have hids : ceRequests.map Request.custom_id =
      ["batch_u_0_0", "batch_u_0_2048", "batch_u_0_4096", "batch_u_0_6144",
       "batch_u_0_8192", "batch_u_0_10240"] := by
    rw [ceRequests_eq]
    simp only [List.map_cons, List.map_nil, mkReq]
  refine ⟨hids, ?_, ?_⟩
  · rw [hids]
    decide
  · rw [hids]
    decide

/-- C4: the claim states that _batch_iterator closes a batch only when the
current batch is non-empty and therefore never yields a batch containing zero
texts, also when the very first text alone exceeds token_limit.  This theorem
shows the claim is false on the code: with token_limit 1 and a first text of
eight characters (heuristic count 2), the planner yields batch 0 with an
empty request list (an empty submission payload) before placing the text in
batch 1, because the source closes the current batch on overflow without
checking that current_request is non-empty. -/
theorem claim_C4 :
    _batch_iterator ["aaaaaaaa"] "m" "u" 1 2048 ceHeuristic =
      [(0, []),
       (1, [{ custom_id := "batch_u_1_0", method := "POST", url := "/v1/embeddings",
              body_model := "m", body_input := ["aaaaaaaa"] }])] := by
  decide

/-- Environment for the C3 counterexample: the job of attempt 0 reports the
terminal status failed; the re-submitted job of every later attempt completes
with one result record. -/
def c3Env : BatchEnv :=
  { polls := fun attempt _ =>
      if attempt == 0 then { status := .failed, output_file_id := none }
      else { status := .completed, output_file_id := some "out" }
    fetch := fun _ _ => [some { custom_id := some "batch_u_0_0", data := some [[9]] }] }

/-- C3: the claim states that a terminal job failure is not retried by the
surrounding 5-attempt retry policy.  This theorem shows the claim is false on
the code: when the first attempt's job reports failed, the polling body raises
the RuntimeError, but the tenacity decorator (which retries on any exception)
re-runs the whole batch, and the run returns embeddings from the second
attempt instead of failing. -/
theorem claim_C3_counterexample :
    processOneBatchAttempt (c3Env.polls 0) (c3Env.fetch 0) 0 1 =
      some (.error "Batch Job Failed: failed")
    ∧ _process_one_batch c3Env 1 = some (.ok [[9]]) := by
  constructor
  · rfl
  · rfl

/-- C3 amended: on a terminal failure status the polling body of
_process_one_batch raises a fatal RuntimeError for that attempt, but the
surrounding 5-attempt retry policy treats it like any other exception and
re-runs the whole submit-poll-fetch body, so a terminal job failure is
retried; here the first attempt fails terminally and the retried second
attempt's result is returned. -/
theorem claim_C3 (env : BatchEnv) (fuel : Nat) (v : List EmbeddingVec)
    (h0 : env.polls 0 0 = { status := .failed, output_file_id := none })
    (h1 : processOneBatchAttempt (env.polls 1) (env.fetch 1) 0 (fuel + 1) = some (.ok v)) :
    processOneBatchAttempt (env.polls 0) (env.fetch 0) 0 (fuel + 1) =
      some (.error "Batch Job Failed: failed")
    ∧ _process_one_batch env (fuel + 1) = some (.ok v) := by
  have hatt : processOneBatchAttempt (env.polls 0) (env.fetch 0) 0 (fuel + 1) =
      some (.error "Batch Job Failed: failed") := by
    rw [processOneBatchAttempt_succ, h0]
    rfl
  refine ⟨hatt, ?_⟩
  unfold _process_one_batch
  rw [show (5 : Nat) = 3 + 2 from rfl, retriedAux_two, hatt]
  simp only [Nat.zero_add]
  rw [show (3 : Nat) + 1 = 2 + 2 from rfl, retriedAux_two, h1]

/-- C3 witness: the amended theorem applied to the concrete environment c3Env
with one unit of polling fuel. -/
theorem claim_C3_witness :
    processOneBatchAttempt (c3Env.polls 0) (c3Env.fetch 0) 0 (0 + 1) =
      some (.error "Batch Job Failed: failed")
    ∧ _process_one_batch c3Env (0 + 1) = some (.ok [[9]]) :=
  claim_C3 c3Env 0 [[9]] rfl rfl

/-- C10: a poll that reports status completed with no output file id is not
treated as terminal: the loop body falls through the completed-with-output and
terminal-failure branches to the log-sleep-poll-again branch, so if every poll
reports that state the loop never returns a result and never raises, for any
number of iterations. -/
theorem claim_C10 (polls : Nat → BatchStatus) (fetch : String → List (Option RawRecord))
    (h : ∀ n, polls n = { status := .completed, output_file_id := none }) :
    ∀ i fuel, processOneBatchAttempt polls fetch i fuel = none := by
  intro i fuel
  induction fuel generalizing i with
  | zero => rfl
  | succ f ih =>
    rw [processOneBatchAttempt_succ, h i]
    simpa using ih (i + 1)

/-- C10 witness: the theorem applied to the constant completed-without-output
poll stream with three units of fuel. -/
theorem claim_C10_witness :
    processOneBatchAttempt (fun _ => { status := .completed, output_file_id := none })
      (fun _ => []) 0 3 = none :=
  claim_C10 _ _ (fun _ => rfl) 0 3

/-- C5: every batch yielded by _batch_iterator carries texts whose aggregate
token count (under the token counter in use) is at most token_limit, except
possibly a batch consisting of exactly one text whose own count exceeds
token_limit. -/
theorem claim_C5 (texts : List String) (model uuid : String) (token_limit chunk_size : Nat)
    (tok : String → Nat) (p : Nat × List Request) (hc : 0 < chunk_size)
    (hp : p ∈ _batch_iterator texts model uuid token_limit chunk_size tok) :
    ((requestTexts p.2).map tok).sum ≤ token_limit ∨
      ∃ t, requestTexts p.2 = [t] ∧ token_limit < tok t := by
  apply batchIteratorAux_sound model uuid token_limit chunk_size tok hc texts [] 0
    (Or.inl (by simp))
  simpa using hp

/-- C5 witness: the two-text run where the second text overflows the limit; its
first yielded batch holds exactly the first text, with token sum 1 at most the
limit 1. -/
theorem claim_C5_witness :
    0 < 2048
    ∧ ((0, _request_iterator ["aaaa"] "m" "u" 0 2048) ∈
        _batch_iterator ["aaaa", "bbbb"] "m" "u" 1 2048 ceHeuristic)
    ∧ (((requestTexts (0, _request_iterator ["aaaa"] "m" "u" 0 2048).2).map ceHeuristic).sum ≤ 1
        ∨ ∃ t, requestTexts (0, _request_iterator ["aaaa"] "m" "u" 0 2048).2 = [t]
            ∧ 1 < ceHeuristic t) :=
  ⟨by norm_num, by decide,
    claim_C5 ["aaaa", "bbbb"] "m" "u" 1 2048 ceHeuristic _ (by norm_num) (by decide)⟩

/-- Poll stream and fetched lines for the C6 counterexample: the job completes
and its output holds a single well-formed record whose custom_id was never
generated by this run. -/
def c6Polls : Nat → BatchStatus := fun _ =>
  { status := .completed, output_file_id := some "out" }

/-- Fetched output lines of the C6 counterexample run. -/
def c6Fetch : String → List (Option RawRecord) := fun _ =>
  [some { custom_id := some "batch_zzzz_7_7", data := some [[3]] }]

/-- C6: the claim states that result assembly also raises an error when a line
carries a custom_id that was not generated for this run's request chunks.
This theorem shows that half of the claim is false on the code: for a
single-text run whose only generated custom_id is batch_u_0_0, a result line
with the foreign custom_id batch_zzzz_7_7 is accepted and its embeddings are
returned, because the source never compares result custom_id values against
the generated ones. -/
theorem claim_C6_counterexample :
    ("batch_zzzz_7_7" ∉ (_request_iterator ["hello"] "m" "u" 0 2048).map Request.custom_id)
    ∧ processOneBatchAttempt c6Polls c6Fetch 0 1 = some (.ok [[3]]) := by
  constructor
  · decide
  · rfl

theorem assembleOutput_err1 (lines : List (Option RawRecord)) (e : String)
    (h1 : mapME loadLine lines = .error e) : assembleOutput lines = .error e := by
  unfold assembleOutput
  simp only [h1]

theorem assembleOutput_err2 (lines : List (Option RawRecord)) (rs : List RawRecord) (e : String)
    (h1 : mapME loadLine lines = .ok rs) (h2 : mapME keyedRecord rs = .error e) :
    assembleOutput lines = .error e := by
  unfold assembleOutput
  simp only [h1, h2]

theorem assembleOutput_err3 (lines : List (Option RawRecord)) (rs : List RawRecord)
    (ks : List (String × RawRecord)) (e : String)
    (h1 : mapME loadLine lines = .ok rs) (h2 : mapME keyedRecord rs = .ok ks)
    (h3 : mapME (fun p => recordData p.2) (sortById Prod.fst ks) = .error e) :
    assembleOutput lines = .error e := by
  unfold assembleOutput
  simp only [h1, h2, h3]

theorem assembleOutput_all_ok (lines : List (Option RawRecord)) (rs : List RawRecord)
    (ks : List (String × RawRecord)) (ds : List (List EmbeddingVec))
    (h1 : mapME loadLine lines = .ok rs) (h2 : mapME keyedRecord rs = .ok ks)
    (h3 : mapME (fun p => recordData p.2) (sortById Prod.fst ks) = .ok ds) :
    assembleOutput lines = .ok ds.flatten := by
  unfold assembleOutput
  simp only [h1, h2, h3]

/-- C6 amended: result assembly raises an error exactly when some output line
is malformed JSON, lacks the custom_id key, or lacks the embedding payload;
records with unrecognized custom_id values are not detected. -/
theorem claim_C6 (lines : List (Option RawRecord)) :
    (∃ e, assembleOutput lines = .error e) ↔
      ∃ o ∈ lines, o = none ∨ ∃ r, o = some r ∧ (r.custom_id = none ∨ r.data = none) := by
  constructor
  · rintro ⟨e, he⟩
    cases h1 : mapME loadLine lines with
    | error e1 =>
      obtain ⟨o, ho, e', he'⟩ := (mapME_error_iff loadLine lines).mp ⟨e1, h1⟩
      refine ⟨o, ho, ?_⟩
      cases o with
      | none => exact Or.inl rfl
      | some r => exact absurd he' (by simp [loadLine])
    | ok rs =>
      have hlines : lines = rs.map some := (mapME_loadLine_ok_iff lines rs).mp h1
      cases h2 : mapME keyedRecord rs with
      | error e2 =>
        obtain ⟨r, hr, e', he'⟩ := (mapME_error_iff keyedRecord rs).mp ⟨e2, h2⟩
        have hcid : r.custom_id = none := by
          unfold keyedRecord at he'
          cases hc : r.custom_id with
          | none => rfl
          | some c => rw [hc] at he'; exact absurd he' (by simp)
        exact ⟨some r, by rw [hlines]; exact List.mem_map_of_mem some hr,
          Or.inr ⟨r, rfl, Or.inl hcid⟩⟩
      | ok ks =>
        obtain ⟨hrs, hkeys⟩ := mapME_keyed_ok rs ks h2
        cases h3 : mapME (fun p => recordData p.2) (sortById Prod.fst ks) with
        | error e3 =>
          obtain ⟨q, hq, e', he'⟩ := (mapME_error_iff _ _).mp ⟨e3, h3⟩
          have hq' : q ∈ ks := (mem_sortById Prod.fst q ks).mp hq
          have hdata : q.2.data = none := by
            unfold recordData at he'
            cases hd : q.2.data with
            | none => rfl
            | some d => rw [hd] at he'; exact absurd he' (by simp)
          refine ⟨some q.2, ?_, Or.inr ⟨q.2, rfl, Or.inr hdata⟩⟩
          rw [hlines, hrs]
          exact List.mem_map_of_mem some (List.mem_map_of_mem Prod.snd hq')
        | ok ds =>
          rw [assembleOutput_all_ok lines rs ks ds h1 h2 h3] at he
          exact absurd he (by simp)
  · rintro ⟨o, ho, hbad⟩
    cases h1 : mapME loadLine lines with
    | error e => exact ⟨e, assembleOutput_err1 lines e h1⟩
    | ok rs =>
      have hlines : lines = rs.map some := (mapME_loadLine_ok_iff lines rs).mp h1
      obtain ⟨r₀, hr₀, ho'⟩ := List.mem_map.mp (by rw [hlines] at ho; exact ho)
      have hbad' : r₀.custom_id = none ∨ r₀.data = none := by
        rcases hbad with h | ⟨r, hor, hb⟩
        · rw [h] at ho'
          exact absurd ho' (by simp)
        · rw [hor] at ho'
          have hre : r₀ = r := by
            injection ho'
          rw [hre]
          exact hb
      cases h2 : mapME keyedRecord rs with
      | error e => exact ⟨e, assembleOutput_err2 lines rs e h1 h2⟩
      | ok ks =>
        obtain ⟨hrs, hkeys⟩ := mapME_keyed_ok rs ks h2
        have hdata : r₀.data = none := by
          rcases hbad' with h | h
          · rw [hrs] at hr₀
            obtain ⟨q, hq, hq2⟩ := List.mem_map.mp hr₀
            have hk := hkeys q hq
            rw [hq2, h] at hk
            exact absurd hk (by simp)
          · exact h
        have herr : ∃ e, mapME (fun p => recordData p.2) (sortById Prod.fst ks) = .error e := by
          apply (mapME_error_iff _ _).mpr
          rw [hrs] at hr₀
          obtain ⟨q, hq, hq2⟩ := List.mem_map.mp hr₀
          refine ⟨q, (mem_sortById Prod.fst q ks).mpr hq, "KeyError response body data", ?_⟩
          unfold recordData
          rw [hq2, hdata]
        obtain ⟨e, he⟩ := herr
        exact ⟨e, assembleOutput_err3 lines rs ks e h1 h2 he⟩

/-- C9: the token counter tries the model-specific tokenizer, then the generic
fallback tokenizer, and otherwise uses the heuristic; in the heuristic case
the count equals the character length divided by four, rounded down.  All
cases return a Nat, so the count is a non-negative integer and the function is
total for every model. -/
theorem claim_C9 :
    (∀ (enc : String → List Nat) (fb : Option (String → List Nat)) (text : String),
      _get_token_count (some enc) fb text = (enc text).length)
    ∧ (∀ (enc : String → List Nat) (text : String),
      _get_token_count none (some enc) text = (enc text).length)
    ∧ (∀ text : String, _get_token_count none none text = text.length / 4) :=
  ⟨fun _ _ _ => rfl, fun _ _ => rfl, fun _ => rfl⟩

theorem toOption_eq_none_iff (x : Except String (List EmbeddingVec)) :
    x.toOption = none ↔ ∃ e, x = .error e := by
  cases x <;> simp [Except.toOption]

/-- C7: generate_openai_batch_embeddings never lets an error escape: whenever
it returns, the result is the explicit no-result outcome none exactly when the
chosen path ended in an error, and any returned embedding list is complete:
either the synchronous outcome itself, or the concatenation of the results of
all planned batches, each of which must have succeeded; a failed batch can
therefore never contribute a partial list. -/
theorem claim_C7 (model uuid : String) (texts : List String)
    (syncOutcome : Except String (List EmbeddingVec)) (tok : String → Nat)
    (env : Nat → BatchEnv) (fuel : Nat) :
    (generate_openai_batch_embeddings model uuid texts syncOutcome tok env fuel = some none ↔
      (((texts.map String.length).sum < 500000 ∧ ∃ e, syncOutcome = .error e) ∨
        (¬ (texts.map String.length).sum < 500000 ∧
          ∃ e, _request_async_embedding model uuid texts tok env fuel 1000000 =
            some (.error e))))
    ∧ (∀ l, generate_openai_batch_embeddings model uuid texts syncOutcome tok env fuel =
        some (some l) →
        ((texts.map String.length).sum < 500000 ∧ syncOutcome = .ok l) ∨
          ((∀ b ∈ _batch_iterator texts model uuid 1000000 2048 tok,
              ∃ v, _process_one_batch (env b.1) fuel = some (.ok v)) ∧
            l = ((_batch_iterator texts model uuid 1000000 2048 tok).map
              (batchResult (fun b => _process_one_batch (env b.1) fuel))).flatten)) := by
  by_cases hlt : (texts.map String.length).sum < 500000
  · constructor
    · unfold generate_openai_batch_embeddings
      rw [if_pos hlt]
      constructor
      · intro h
        have hn : syncOutcome.toOption = none := by injection h
        exact Or.inl ⟨hlt, (toOption_eq_none_iff syncOutcome).mp hn⟩
      · rintro (⟨_, e, he⟩ | ⟨hn, _⟩)
        · rw [he]
          rfl
        · exact absurd hlt hn
    · intro l h
      unfold generate_openai_batch_embeddings at h
      rw [if_pos hlt] at h
      have h2 : syncOutcome.toOption = some l := by injection h
      refine Or.inl ⟨hlt, ?_⟩
      cases syncOutcome with
      | error e => simp [Except.toOption] at h2
      | ok v =>
        have : v = l := by simpa [Except.toOption] using h2
        rw [this]
  · constructor
    · unfold generate_openai_batch_embeddings
      rw [if_neg hlt]
      constructor
      · intro h
        refine Or.inr ⟨hlt, ?_⟩
        cases hA : _request_async_embedding model uuid texts tok env fuel 1000000 with
        | none => rw [hA] at h; simp at h
        | some x =>
          rw [hA] at h
          cases x with
          | error e => exact ⟨e, rfl⟩
          | ok v => simp [Except.toOption] at h
      · rintro (⟨hl, _⟩ | ⟨_, e, he⟩)
        · exact absurd hl hlt
        · rw [he]
          rfl
    · intro l h
      unfold generate_openai_batch_embeddings at h
      rw [if_neg hlt] at h
      refine Or.inr ?_
      cases hA : _request_async_embedding model uuid texts tok env fuel 1000000 with
      | none => rw [hA] at h; simp at h
      | some x =>
        rw [hA] at h
        cases x with
        | error e => simp [Except.toOption] at h
        | ok v =>
          have hv : v = l := by simpa [Except.toOption] using h
          subst hv
          unfold _request_async_embedding at hA
          obtain ⟨hall, hres⟩ := asyncBatches_ok_inv _ _ _ hA
          exact ⟨hall, hres⟩

/-- C7 witness: the theorem applied to a concrete synchronous-path run whose
provider call fails, which yields the explicit no-result outcome. -/
theorem claim_C7_witness :
    generate_openai_batch_embeddings "m" "u" [] (.error "boom") ceHeuristic ceEnv 1 =
      some none :=
  (claim_C7 "m" "u" [] (.error "boom") ceHeuristic ceEnv 1).1.mpr
    (Or.inl ⟨by decide, "boom", rfl⟩)

/-- C8: generate_openai_batch_embeddings takes the synchronous path exactly
when the total character length of the texts is strictly below 500000;
otherwise it runs the planned batches, whose batch_idx values are exactly
0, 1, 2, ... in plan order, and concatenates the per-batch embedding lists in
that order. -/
theorem claim_C8 (model uuid : String) (texts : List String)
    (syncOutcome : Except String (List EmbeddingVec)) (tok : String → Nat)
    (env : Nat → BatchEnv) (fuel : Nat) (f : Nat × List Request → List EmbeddingVec)
    (hf : ∀ b ∈ _batch_iterator texts model uuid 1000000 2048 tok,
        _process_one_batch (env b.1) fuel = some (.ok (f b))) :
    ((texts.map String.length).sum < 500000 →
      generate_openai_batch_embeddings model uuid texts syncOutcome tok env fuel =
        some syncOutcome.toOption)
    ∧ (¬ (texts.map String.length).sum < 500000 →
      generate_openai_batch_embeddings model uuid texts syncOutcome tok env fuel =
        some (some (((_batch_iterator texts model uuid 1000000 2048 tok).map f).flatten)))
    ∧ (_batch_iterator texts model uuid 1000000 2048 tok).map Prod.fst =
        List.range (_batch_iterator texts model uuid 1000000 2048 tok).length := by
  refine ⟨?_, ?_, ?_⟩
  · intro h
    unfold generate_openai_batch_embeddings
    rw [if_pos h]
  · intro h
    unfold generate_openai_batch_embeddings
    rw [if_neg h]
    unfold _request_async_embedding
    rw [asyncBatches_all_ok _ f _ hf]
    rfl
  · unfold _batch_iterator
    rw [batchIteratorAux_indices, List.range_eq_range']

/-- C8 witness: the theorem's synchronous conjunct applied to the empty text
list, whose total character length 0 takes the synchronous path. -/
theorem claim_C8_witness :
    generate_openai_batch_embeddings "m" "u" [] (.ok [[1]]) ceHeuristic ceEnv 1 =
      some (Except.ok [[1]] : Except String (List EmbeddingVec)).toOption :=
  (claim_C8 "m" "u" [] (.ok [[1]]) ceHeuristic ceEnv 1 (fun _ => [])
    (fun b hb => absurd hb (List.not_mem_nil b))).1 (by decide)

end BatchUtils
